import Mathlib

/-!
Shallow embedding of the deep-zoom precision and reference-orbit subsystem of
FractalRenderer (`src/deep_zoom_system.h`, `src/deep_zoom_system.cpp`,
`src/high_precision_math.h`).

Modelling conventions:
* IEEE doubles and MPFR high-precision floats are idealized as real numbers `ℝ`;
  the claims under study concern the real-valued formulas and the control flow
  of the code, not rounding.  NaN and infinity do not arise in the exact model;
  where the source tests for them this is noted next to the definition.
* `ArbitraryFloat` (mantissa × 10^exponent with value-preserving `normalize`)
  is represented by its real value, since every operation the subsystem
  performs on it goes through `to_double()`.
* C++ `int` is modelled as `ℤ`, `size_t` as `ℕ`; the implicit `int → size_t`
  conversion at the `resize` call sites is modelled explicitly by
  `size_t_of_int`.
* The GPU upload step (`upload_to_gpu`) is an external collaborator per the
  spec; it is not modelled.  Its only CPU-visible effect would be clearing
  `is_dirty` after a successful Vulkan allocation.
* Logging (`fmt::print`) and the `_fractal_state` mirror writes are external
  side effects with no bearing on the subsystem state and are not modelled.
-/

set_option autoImplicit false

/-- Complex-number model shared by `std::complex<double>` and
`HighPrecisionComplex` (both idealized over `ℝ`). -/
@[ext]
structure Cplx where
  re : ℝ
  im : ℝ

/-- Complex addition (componentwise, as in both source types). -/
def Cplx.add (z w : Cplx) : Cplx :=
  ⟨z.re + w.re, z.im + w.im⟩

/-- Complex multiplication `(a+bi)(c+di) = (ac−bd) + (ad+bc)i`, as in
`std::complex` and `HighPrecisionComplex::operator*`. -/
def Cplx.mul (z w : Cplx) : Cplx :=
  ⟨z.re * w.re - z.im * w.im, z.re * w.im + z.im * w.re⟩

/-- `HighPrecisionComplex::square`: real part `r·r − i·i`, imaginary part
`2·r·i`. -/
def Cplx.square (z : Cplx) : Cplx :=
  ⟨z.re * z.re - z.im * z.im, 2 * z.re * z.im⟩

/-- `HighPrecisionComplex::magnitude_squared`: `a·a + b·b`. -/
def Cplx.normSq (z : Cplx) : ℝ :=
  z.re * z.re + z.im * z.im

/-- `std::abs` on a complex double: the magnitude `√(a² + b²)`. -/
noncomputable def Cplx.cabs (z : Cplx) : ℝ :=
  Real.sqrt z.normSq

/-- `ReferenceOrbitPoint` from `deep_zoom_system.h`: one stored iterate
(truncated to double in the source; exact here) and its 0-based index. -/
@[ext]
structure ReferenceOrbitPoint where
  value : Cplx
  iteration : ℕ

/-- The value-initialized `ReferenceOrbitPoint` produced by
`std::vector::resize` for newly added elements: zero complex, iteration 0. -/
def ReferenceOrbitPoint.default0 : ReferenceOrbitPoint :=
  ⟨⟨0, 0⟩, 0⟩

/-- `ReferenceOrbitBuffer`: the CPU-resident orbit sequence and the dirty flag.
The Vulkan buffer handle is external state and is not modelled. -/
@[ext]
structure ReferenceOrbitBuffer where
  cpu_data : List ReferenceOrbitPoint
  is_dirty : Bool

/-- `ReferenceOrbitBuffer::resize(n)`, i.e. `cpu_data.resize(n)` followed by
`is_dirty = true`.  `std::vector::resize` keeps the existing elements up to
position `n` and value-initializes any newly added tail elements. -/
def ReferenceOrbitBuffer.resize (b : ReferenceOrbitBuffer) (n : ℕ) : ReferenceOrbitBuffer :=
  ⟨b.cpu_data.take n ++ List.replicate (n - b.cpu_data.length) ReferenceOrbitPoint.default0,
    true⟩

/-- The C++ implicit conversion from (32-bit) `int` to 64-bit `size_t` at the
`resize(state.max_iterations)` call sites: non-negative values pass through,
negative values wrap modulo `2^64`. -/
def size_t_of_int (m : ℤ) : ℕ :=
  if m < 0 then ((2 : ℤ) ^ 64 + m).toNat else m.toNat

/-- `PrecisionMode` from `deep_zoom_system.h`. -/
inductive PrecisionMode where
  | Double
  | Quad
  | Arbitrary
deriving DecidableEq

/-- `DeepZoomState` from `deep_zoom_system.h`, restricted to the fields the
numeric core reads or writes (color/bailout/series fields are inert data and
omitted).  `center_x`, `center_y`, `zoom` are the real values of the
`ArbitraryFloat` coordinates. -/
@[ext]
structure DeepZoomState where
  center_x : ℝ
  center_y : ℝ
  zoom : ℝ
  max_iterations : ℤ
  use_perturbation : Bool
  reference_iterations : ℤ
  deep_zoom_iterations : ℤ
  samples_per_pixel : ℤ
  zoom_animating : Bool
  zoom_progress : ℝ
  zoom_depth_level : ℤ
  estimated_render_time : ℝ
  precision_mode : PrecisionMode
  precision_bits : ℤ
  high_precision_enabled : Bool

/-- `ZoomKeyframe` from `deep_zoom_system.h`. -/
@[ext]
structure ZoomKeyframe where
  center_x : ℝ
  center_y : ℝ
  zoom : ℝ
  duration : ℝ

/-- Member initializers of `ZoomKeyframe`: centers 0, zoom 1.0, duration 0. -/
instance : Inhabited ZoomKeyframe :=
  ⟨⟨0, 0, 1, 0⟩⟩

/-- `DeepZoomManager`: public `state` and `reference_orbit` plus the private
animation cursor (`_zoom_path`, `_current_keyframe`, `_animation_time`). -/
@[ext]
structure DeepZoomManager where
  state : DeepZoomState
  reference_orbit : ReferenceOrbitBuffer
  zoom_path : List ZoomKeyframe
  current_keyframe : ℕ
  animation_time : ℝ

/-- `DeepZoomManager::calculate_required_precision_bits`, as a function of
`zoom_val = |state.zoom.to_double()|`.  The C++ `static_cast<int>` truncates
toward zero; `digits_needed * 3.32` is positive on the else-branch
(`zoom_val < 1e-14`), so truncation is `Int.floor` there. -/
noncomputable def calculate_required_precision_bits (zoom_val : ℝ) : ℤ :=
  if 1e-14 ≤ zoom_val then 64
  else
    let digits_needed : ℝ := -Real.logb 10 zoom_val
    max 128 (min (64 + ⌊digits_needed * 3.32⌋ + 64) 4096)

/-- Modelled from the spec: the bit-width formula as the spec states it,
`64 + ceil(−log10(|zoom|)·3.32) + 64` clamped to `[128, 4096]`, for comparison
against `calculate_required_precision_bits` (which truncates). -/
noncomputable def spec_precision_bits (zoom_val : ℝ) : ℤ :=
  max 128 (min (64 + ⌈(-Real.logb 10 zoom_val) * 3.32⌉ + 64) 4096)

/-- `DeepZoomManager::update_precision_mode` (its effect on `state`; the
`_fractal_state` mirror write in the Arbitrary branch is external). -/
noncomputable def DeepZoomState.update_precision_mode (s : DeepZoomState) : DeepZoomState :=
  let zoom_val := |s.zoom|
  if 1e-14 < zoom_val then
    { s with
        precision_mode := PrecisionMode.Double
        precision_bits := 64
        high_precision_enabled := false }
  else if 1e-30 < zoom_val then
    { s with
        precision_mode := PrecisionMode.Quad
        precision_bits := calculate_required_precision_bits zoom_val
        high_precision_enabled := true }
  else
    { s with
        precision_mode := PrecisionMode.Arbitrary
        precision_bits := calculate_required_precision_bits zoom_val
        high_precision_enabled := true }

/-- Escape test of the double-precision loop in
`DeepZoomManager::compute_reference_orbit`: `|z| > 2.0`, or the divergence
guard `|z| > 1e10` (the NaN/Inf subcases of the guard cannot arise in the
exact model). -/
def escDouble (z : Cplx) : Prop :=
  2 < z.cabs ∨ 1e10 < z.cabs

/-- Escape test of `compute_reference_orbit_high_precision`:
`magnitude_squared() > 4.0`. -/
def escHP (z : Cplx) : Prop :=
  4 < z.normSq

noncomputable instance : DecidablePred escDouble := fun z => by
  unfold escDouble; infer_instance

noncomputable instance : DecidablePred escHP := fun z => by
  unfold escHP; infer_instance

/-- The shared shape of the two reference-orbit loops
(`for (i = 0; i < max_iterations; i++) { store z at i; if escaped break;
z = next(z); }`), parameterized by the escape test and the iteration step.
Returns the written-to storage and `some i` when the loop broke at iteration
`i` (the source's `escape_iter`), `none` when it ran to completion. -/
def run_orbit_loop (esc : Cplx → Prop) [DecidablePred esc] (nxt : Cplx → Cplx) :
    List ReferenceOrbitPoint → Cplx → ℕ → ℕ → List ReferenceOrbitPoint × Option ℕ
  | data, _, _, 0 => (data, none)
  | data, z, i, fuel + 1 =>
    let data1 := data.set i ⟨z, i⟩
    if esc z then (data1, some i)
    else run_orbit_loop esc nxt data1 (nxt z) (i + 1) fuel

/-- The sequence of points the orbit loop actually writes, starting from
iterate `z` at index `i` with `fuel` loop steps remaining: the functional
view of `run_orbit_loop` used to state and prove its properties. -/
def orbit_trace (esc : Cplx → Prop) [DecidablePred esc] (nxt : Cplx → Cplx) :
    Cplx → ℕ → ℕ → List ReferenceOrbitPoint
  | _, _, 0 => []
  | z, i, fuel + 1 =>
    if esc z then [⟨z, i⟩]
    else ⟨z, i⟩ :: orbit_trace esc nxt (nxt z) (i + 1) fuel

/-- The storage phase both orbit paths share: `reference_orbit.resize(max)`,
the escape-time loop from `z = 0`, the trim `resize(escape_iter + 1)` when
escape occurred before `max_iterations`, and the update of
`reference_iterations` / `deep_zoom_iterations` to the stored length. -/
def orbit_pass (esc : Cplx → Prop) [DecidablePred esc] (nxt : Cplx → Cplx)
    (m : DeepZoomManager) : DeepZoomManager :=
  let b1 := m.reference_orbit.resize (size_t_of_int m.state.max_iterations)
  let r := run_orbit_loop esc nxt b1.cpu_data ⟨0, 0⟩ 0 m.state.max_iterations.toNat
  let b2 : ReferenceOrbitBuffer :=
    match r.2 with
    | some e =>
      if (e : ℤ) < m.state.max_iterations then
        ReferenceOrbitBuffer.resize ⟨r.1, b1.is_dirty⟩ (e + 1)
      else ⟨r.1, b1.is_dirty⟩
    | none => ⟨r.1, b1.is_dirty⟩
  { m with
      reference_orbit := b2
      state := { m.state with
        reference_iterations := (b2.cpu_data.length : ℤ)
        deep_zoom_iterations := (b2.cpu_data.length : ℤ) } }

/-- The escape-time step `z ← z·z + c` of the double-precision loop. -/
def zStep (c : Cplx) (z : Cplx) : Cplx :=
  (z.mul z).add c

/-- The mathematical reference orbit `z_0 = 0`, `z_{n+1} = z_n² + c`. -/
def zOrbit (c : Cplx) (n : ℕ) : Cplx :=
  (zStep c)^[n] ⟨0, 0⟩

/-- `DeepZoomManager::compute_reference_orbit`: early return unless
`use_perturbation`; `update_precision_mode`; then the high-precision loop
(escape on `magnitude_squared > 4`, step `z.square() + c`) when
`high_precision_enabled`, else the double loop (escape on `|z| > 2` with the
`1e10` guard, step `z*z + c`). -/
noncomputable def DeepZoomManager.compute_reference_orbit (m : DeepZoomManager) :
    DeepZoomManager :=
  if m.state.use_perturbation then
    let s1 := m.state.update_precision_mode
    let c : Cplx := ⟨s1.center_x, s1.center_y⟩
    if s1.high_precision_enabled then
      orbit_pass escHP (fun z => (Cplx.square z).add c) { m with state := s1 }
    else
      orbit_pass escDouble (zStep c) { m with state := s1 }
  else m

/-- The zoom computation of `DeepZoomManager::interpolate_to_keyframe`:
`exp(log z0 + t·(log z1 − log z0))` (log-space interpolation). -/
noncomputable def interpolate_zoom_log (z0 z1 t : ℝ) : ℝ :=
  Real.exp (Real.log z0 + t * (Real.log z1 - Real.log z0))

/-- `DeepZoomManager::interpolate_to_keyframe(index, t)`: a no-op when
`index <= 0 || index >= _zoom_path.size()`; otherwise linear interpolation of
the centers between keyframes `index-1` and `index`, and log-space
interpolation of the zoom. -/
noncomputable def DeepZoomManager.interpolate_to_keyframe (m : DeepZoomManager)
    (index : ℕ) (t : ℝ) : DeepZoomManager :=
  if index = 0 ∨ m.zoom_path.length ≤ index then m
  else
    let prev := m.zoom_path.getD (index - 1) default
    let curr := m.zoom_path.getD index default
    { m with state := { m.state with
        center_x := prev.center_x + t * (curr.center_x - prev.center_x)
        center_y := prev.center_y + t * (curr.center_y - prev.center_y)
        zoom := interpolate_zoom_log prev.zoom curr.zoom t } }

/-- `DeepZoomManager::update_animation(delta_time)`. -/
noncomputable def DeepZoomManager.update_animation (m : DeepZoomManager)
    (delta_time : ℝ) : DeepZoomManager :=
  if m.zoom_path.length = 0 ∨ m.zoom_path.length ≤ m.current_keyframe then
    { m with state := { m.state with zoom_animating := false } }
  else
    let m1 := { m with animation_time := m.animation_time + delta_time }
    let kf := m1.zoom_path.getD m1.current_keyframe default
    if kf.duration ≤ m1.animation_time then
      let m2 := { m1 with
        state := { m1.state with
          center_x := kf.center_x, center_y := kf.center_y, zoom := kf.zoom }
        current_keyframe := m1.current_keyframe + 1
        animation_time := 0 }
      let m3 := m2.compute_reference_orbit
      if m3.zoom_path.length ≤ m3.current_keyframe then
        { m3 with state := { m3.state with zoom_animating := false, zoom_progress := 1 } }
      else m3
    else
      let t := m1.animation_time / kf.duration
      let m2 := m1.interpolate_to_keyframe m1.current_keyframe t
      let total := (m2.zoom_path.map ZoomKeyframe.duration).sum
      let elapsed := ((m2.zoom_path.take m2.current_keyframe).map ZoomKeyframe.duration).sum
        + m2.animation_time
      { m2 with state := { m2.state with
          zoom_progress := if 0 < total then elapsed / total else 1 } }

/-- `DeepZoomManager::update(delta_time)`: run the animation when playing,
then recompute `zoom_depth_level` and `estimated_render_time` from the
current zoom. -/
noncomputable def DeepZoomManager.update (m : DeepZoomManager) (delta_time : ℝ) :
    DeepZoomManager :=
  let m1 := if m.state.zoom_animating then m.update_animation delta_time else m
  let zoom_val := m1.state.zoom
  let depth : ℤ :=
    if 1e-6 < zoom_val then 0
    else if 1e-10 < zoom_val then 1
    else if 1e-14 < zoom_val then 2
    else 3
  { m1 with state := { m1.state with
      zoom_depth_level := depth
      estimated_render_time :=
        (m1.state.max_iterations : ℝ) * 0.001 * (m1.state.samples_per_pixel : ℝ)
          * (1 + (depth : ℝ) * 0.5) } }

/-- The state the `DeepZoomManager` constructor and the `DeepZoomState` member
initializers produce: center `(-0.5, 0)`, zoom `2.0`, 1000 iterations,
perturbation on, double precision. -/
def baseState : DeepZoomState where
  center_x := -0.5
  center_y := 0
  zoom := 2
  max_iterations := 1000
  use_perturbation := true
  reference_iterations := 0
  deep_zoom_iterations := 0
  samples_per_pixel := 1
  zoom_animating := false
  zoom_progress := 0
  zoom_depth_level := 0
  estimated_render_time := 0
  precision_mode := PrecisionMode.Double
  precision_bits := 64
  high_precision_enabled := false

/-- A freshly constructed manager: base state, empty orbit buffer, no path. -/
def baseManager : DeepZoomManager where
  state := baseState
  reference_orbit := ⟨[], true⟩
  zoom_path := []
  current_keyframe := 0
  animation_time := 0

/-- A state whose zoom magnitude sits exactly on the `1e-14` threshold. -/
noncomputable def boundaryState14 : DeepZoomState :=
  { baseState with zoom := 1e-14 }

/-- A state whose zoom magnitude sits exactly on the `1e-30` threshold. -/
noncomputable def boundaryState30 : DeepZoomState :=
  { baseState with zoom := 1e-30 }

/-- A buffer holding one non-default point, with the dirty flag clear. -/
def sampleBuffer : ReferenceOrbitBuffer :=
  ⟨[⟨⟨1, 1⟩, 7⟩], false⟩

/-- A manager with perturbation rendering switched off. -/
def noPertManager : DeepZoomManager :=
  { baseManager with state := { baseState with use_perturbation := false } }

/-- A manager centered at `(2, 2)` (a point that escapes at iteration 1)
with a budget of 3 iterations. -/
def escapeManager : DeepZoomManager :=
  { baseManager with state :=
    { baseState with center_x := 2, center_y := 2, max_iterations := 3 } }

/-- A manager asked for a negative iteration count. -/
def negIterManager : DeepZoomManager :=
  { baseManager with state := { baseState with max_iterations := -1 } }

/-- A manager asked for zero iterations. -/
def zeroIterManager : DeepZoomManager :=
  { baseManager with state := { baseState with max_iterations := 0 } }

/-- The two keyframes `zoomTo` would synthesize: current position with
duration 0, then a target with duration 5. -/
noncomputable def kfStart : ZoomKeyframe :=
  ⟨-0.5, 0, 2, 0⟩

noncomputable def kfEnd : ZoomKeyframe :=
  ⟨-0.75, 0.1, 1e-6, 5⟩

/-- A manager that just started playing the two-keyframe path (cursor at the
zero-duration start keyframe); perturbation off so the snap's orbit
recomputation is the identity. -/
noncomputable def animManager : DeepZoomManager where
  state := { baseState with zoom_animating := true, use_perturbation := false }
  reference_orbit := ⟨[], true⟩
  zoom_path := [kfStart, kfEnd]
  current_keyframe := 0
  animation_time := 0

/-- The same animation, mid-segment: cursor on the 5-second keyframe with 2
seconds elapsed. -/
noncomputable def midManager : DeepZoomManager :=
  { animManager with current_keyframe := 1, animation_time := 2 }

/-! ### Basic lemmas about the embedded operations -/

/-- `HighPrecisionComplex::square` agrees with complex self-multiplication. -/
theorem Cplx.square_eq_mul_self (z : Cplx) : z.square = z.mul z := by
  ext
  · rfl
  · show 2 * z.re * z.im = z.re * z.im + z.im * z.re
    ring

theorem Cplx.normSq_nonneg (z : Cplx) : 0 ≤ z.normSq :=
  add_nonneg (mul_self_nonneg z.re) (mul_self_nonneg z.im)

/-- The double-path escape test (`|z| > 2`, with the `|z| > 1e10` divergence
guard) holds exactly when the squared magnitude exceeds 4: in exact arithmetic
the guard is subsumed by the primary test. -/
theorem escDouble_iff (z : Cplx) : escDouble z ↔ 4 < z.normSq := by
  constructor
  · rintro (h | h)
    · have h4 : (2 : ℝ) ^ 2 < z.normSq := (Real.lt_sqrt (by norm_num)).mp h
      nlinarith
    · have h2 : (2 : ℝ) < Real.sqrt z.normSq := lt_trans (by norm_num) h
      have h4 : (2 : ℝ) ^ 2 < z.normSq := (Real.lt_sqrt (by norm_num)).mp h2
      nlinarith
  · intro h
    exact Or.inl ((Real.lt_sqrt (by norm_num)).mpr (by nlinarith))

theorem escHP_iff (z : Cplx) : escHP z ↔ 4 < z.normSq := Iff.rfl

@[simp]
theorem ReferenceOrbitBuffer.length_resize (b : ReferenceOrbitBuffer) (n : ℕ) :
    (b.resize n).cpu_data.length = n := by
  simp only [resize, List.length_append, List.length_take, List.length_replicate]
  omega

@[simp]
theorem ReferenceOrbitBuffer.is_dirty_resize (b : ReferenceOrbitBuffer) (n : ℕ) :
    (b.resize n).is_dirty = true := rfl

@[simp]
theorem size_t_of_int_of_nonneg {m : ℤ} (h : 0 ≤ m) : size_t_of_int m = m.toNat := by
  simp [size_t_of_int, not_lt.mpr h]

/-- `update_precision_mode` writes only the three precision fields. -/
theorem DeepZoomState.update_precision_mode_eta (s : DeepZoomState) :
    s.update_precision_mode = { s with
      precision_mode := s.update_precision_mode.precision_mode
      precision_bits := s.update_precision_mode.precision_bits
      high_precision_enabled := s.update_precision_mode.high_precision_enabled } := by
  unfold update_precision_mode
  dsimp only
  split_ifs <;> rfl

@[simp]
theorem DeepZoomState.update_precision_mode_center_x (s : DeepZoomState) :
    s.update_precision_mode.center_x = s.center_x := by
  unfold update_precision_mode
  dsimp only
  split_ifs <;> rfl

@[simp]
theorem DeepZoomState.update_precision_mode_center_y (s : DeepZoomState) :
    s.update_precision_mode.center_y = s.center_y := by
  unfold update_precision_mode
  dsimp only
  split_ifs <;> rfl

@[simp]
theorem DeepZoomState.update_precision_mode_zoom (s : DeepZoomState) :
    s.update_precision_mode.zoom = s.zoom := by
  unfold update_precision_mode
  dsimp only
  split_ifs <;> rfl

@[simp]
theorem DeepZoomState.update_precision_mode_max_iterations (s : DeepZoomState) :
    s.update_precision_mode.max_iterations = s.max_iterations := by
  unfold update_precision_mode
  dsimp only
  split_ifs <;> rfl

@[simp]
theorem DeepZoomState.update_precision_mode_use_perturbation (s : DeepZoomState) :
    s.update_precision_mode.use_perturbation = s.use_perturbation := by
  unfold update_precision_mode
  dsimp only
  split_ifs <;> rfl

/-! ### The orbit loop and its trace -/

/-- Setting index `i` and then taking `i + 1` elements appends the new element
to the unchanged front part. -/
theorem take_succ_set {α : Type} (l : List α) (i : ℕ) (a : α) (h : i < l.length) :
    (l.set i a).take (i + 1) = l.take i ++ [a] := by
  rw [List.set_eq_take_append_cons_drop, if_pos h, List.take_append_eq_append_take]
  have hlen : (l.take i).length = i := by
    rw [List.length_take]; omega
  rw [List.take_take, min_eq_right (Nat.le_succ i), hlen]
  simp

theorem run_orbit_loop_length (esc : Cplx → Prop) [DecidablePred esc] (nxt : Cplx → Cplx) :
    ∀ (fuel : ℕ) (data : List ReferenceOrbitPoint) (z : Cplx) (i : ℕ),
      (run_orbit_loop esc nxt data z i fuel).1.length = data.length := by
  intro fuel
  induction fuel with
  | zero => intro data z i; rfl
  | succ fuel ih =>
    intro data z i
    unfold run_orbit_loop
    by_cases hesc : esc z
    · simp [hesc]
    · simp only [hesc, if_false]
      rw [ih]
      simp

/-- The central characterization of the loop body: starting at index `i` with
`fuel = data.length − i` steps available, the storage it returns is the
untouched front of `data` followed by `orbit_trace`; on escape at index `e`,
the part up to `e` is exactly the trace and `e` marks its last index. -/
theorem run_orbit_loop_spec (esc : Cplx → Prop) [DecidablePred esc] (nxt : Cplx → Cplx) :
    ∀ (fuel : ℕ) (z : Cplx) (i : ℕ) (data : List ReferenceOrbitPoint),
      data.length = i + fuel →
      (((run_orbit_loop esc nxt data z i fuel).2 = none →
        (run_orbit_loop esc nxt data z i fuel).1
          = data.take i ++ orbit_trace esc nxt z i fuel
        ∧ (orbit_trace esc nxt z i fuel).length = fuel)
      ∧ (∀ e : ℕ, (run_orbit_loop esc nxt data z i fuel).2 = some e →
        (run_orbit_loop esc nxt data z i fuel).1.take (e + 1)
          = data.take i ++ orbit_trace esc nxt z i fuel
        ∧ e + 1 = i + (orbit_trace esc nxt z i fuel).length
        ∧ e < i + fuel)) := by
  intro fuel
  induction fuel with
  | zero =>
    intro z i data hlen
    refine ⟨fun _ => ⟨?_, rfl⟩, fun e he => by simp [run_orbit_loop] at he⟩
    simp only [run_orbit_loop, orbit_trace, List.append_nil]
    have hi : i = data.length := by omega
    subst hi
    exact (List.take_length data).symm
  | succ fuel ih =>
    intro z i data hlen
    by_cases hesc : esc z
    · constructor
      · intro hnone
        simp [run_orbit_loop, hesc] at hnone
      · intro e he
        simp only [run_orbit_loop, hesc, if_true] at he ⊢
        obtain rfl : i = e := by simpa using he
        simp only [orbit_trace, hesc, if_true]
        refine ⟨take_succ_set data i _ (by omega), by simp, by omega⟩
    · have hlen1 : (data.set i (⟨z, i⟩ : ReferenceOrbitPoint)).length = (i + 1) + fuel := by
        rw [List.length_set]; omega
      have hkey : (data.set i (⟨z, i⟩ : ReferenceOrbitPoint)).take (i + 1)
          = data.take i ++ [⟨z, i⟩] := take_succ_set data i _ (by omega)
      have IH := ih (nxt z) (i + 1) (data.set i ⟨z, i⟩) hlen1
      constructor
      · intro hnone
        simp only [run_orbit_loop, hesc, if_false] at hnone ⊢
        obtain ⟨h1, h2⟩ := IH.1 hnone
        simp only [orbit_trace, hesc, if_false]
        constructor
        · rw [h1, hkey, List.append_assoc]
          rfl
        · simp [h2]
      · intro e he
        simp only [run_orbit_loop, hesc, if_false] at he ⊢
        obtain ⟨h1, h2, h3⟩ := IH.2 e he
        simp only [orbit_trace, hesc, if_false]
        refine ⟨?_, by simp; omega, by omega⟩
        rw [h1, hkey, List.append_assoc]
        rfl

theorem orbit_trace_length_le (esc : Cplx → Prop) [DecidablePred esc] (nxt : Cplx → Cplx) :
    ∀ (fuel : ℕ) (z : Cplx) (i : ℕ), (orbit_trace esc nxt z i fuel).length ≤ fuel := by
  intro fuel
  induction fuel with
  | zero => intro z i; simp [orbit_trace]
  | succ fuel ih =>
    intro z i
    by_cases hesc : esc z
    · simp [orbit_trace, hesc]
    · simpa [orbit_trace, hesc] using ih (nxt z) (i + 1)

theorem orbit_trace_ne_nil (esc : Cplx → Prop) [DecidablePred esc] (nxt : Cplx → Cplx)
    (fuel : ℕ) (z : Cplx) (i : ℕ) (h : 0 < fuel) : orbit_trace esc nxt z i fuel ≠ [] := by
  obtain ⟨fuel, rfl⟩ : ∃ k, fuel = k + 1 := ⟨fuel - 1, by omega⟩
  by_cases hesc : esc z <;> simp [orbit_trace, hesc]

/-- The point stored at offset `j` of the trace is the `j`-th iterate paired
with its global index `i + j`. -/
theorem orbit_trace_getElem? (esc : Cplx → Prop) [DecidablePred esc] (nxt : Cplx → Cplx) :
    ∀ (fuel : ℕ) (z : Cplx) (i j : ℕ), j < (orbit_trace esc nxt z i fuel).length →
      (orbit_trace esc nxt z i fuel)[j]? = some ⟨nxt^[j] z, i + j⟩ := by
  intro fuel
  induction fuel with
  | zero => intro z i j h; simp [orbit_trace] at h
  | succ fuel ih =>
    intro z i j h
    by_cases hesc : esc z
    · simp only [orbit_trace, hesc, if_true] at h ⊢
      match j with
      | 0 => simp
      | j + 1 => simp at h
    · simp only [orbit_trace, hesc, if_false] at h ⊢
      match j with
      | 0 => simp
      | j + 1 =>
        have hj : j < (orbit_trace esc nxt (nxt z) (i + 1) fuel).length := by
          simpa using h
        rw [List.getElem?_cons_succ, Function.iterate_succ_apply,
          show i + (j + 1) = i + 1 + j by omega]
        exact ih (nxt z) (i + 1) j hj

theorem orbit_trace_length_of_no_escape (esc : Cplx → Prop) [DecidablePred esc]
    (nxt : Cplx → Cplx) :
    ∀ (fuel : ℕ) (z : Cplx) (i : ℕ), (∀ j, j < fuel → ¬ esc (nxt^[j] z)) →
      (orbit_trace esc nxt z i fuel).length = fuel := by
  intro fuel
  induction fuel with
  | zero => intro z i _; simp [orbit_trace]
  | succ fuel ih =>
    intro z i hno
    have hesc : ¬ esc z := by simpa using hno 0 (by omega)
    have hrec : ∀ j, j < fuel → ¬ esc (nxt^[j] (nxt z)) := by
      intro j hj
      simpa [Function.iterate_succ_apply] using hno (j + 1) (by omega)
    simp [orbit_trace, hesc, ih (nxt z) (i + 1) hrec]

theorem orbit_trace_length_of_escape (esc : Cplx → Prop) [DecidablePred esc]
    (nxt : Cplx → Cplx) :
    ∀ (fuel e : ℕ) (z : Cplx) (i : ℕ), e < fuel → esc (nxt^[e] z) →
      (∀ j, j < e → ¬ esc (nxt^[j] z)) →
      (orbit_trace esc nxt z i fuel).length = e + 1 := by
  intro fuel
  induction fuel with
  | zero => intro e z i he; omega
  | succ fuel ih =>
    intro e z i he hesc hmin
    match e with
    | 0 =>
      have : esc z := by simpa using hesc
      simp [orbit_trace, this]
    | e + 1 =>
      have h0 : ¬ esc z := by simpa using hmin 0 (by omega)
      have hesc1 : esc (nxt^[e] (nxt z)) := by
        simpa [Function.iterate_succ_apply] using hesc
      have hmin1 : ∀ j, j < e → ¬ esc (nxt^[j] (nxt z)) := by
        intro j hj
        simpa [Function.iterate_succ_apply] using hmin (j + 1) (by omega)
      simp [orbit_trace, h0, ih e (nxt z) (i + 1) (by omega) hesc1 hmin1]

theorem orbit_trace_getLast_escapes (esc : Cplx → Prop) [DecidablePred esc]
    (nxt : Cplx → Cplx) :
    ∀ (fuel : ℕ) (z : Cplx) (i : ℕ)
      (hl : (orbit_trace esc nxt z i fuel).length < fuel)
      (hne : orbit_trace esc nxt z i fuel ≠ []),
      esc ((orbit_trace esc nxt z i fuel).getLast hne).value := by
  intro fuel
  induction fuel with
  | zero => intro z i hl; exact absurd hl (Nat.not_lt_zero _)
  | succ fuel ih =>
    intro z i hl hne
    by_cases hesc : esc z
    · simp only [orbit_trace, hesc, if_true] at hne ⊢
      simpa using hesc
    · simp only [orbit_trace, hesc, if_false] at hl hne ⊢
      have hlr : (orbit_trace esc nxt (nxt z) (i + 1) fuel).length < fuel := by
        simp only [List.length_cons] at hl
        omega
      have hfuel : 0 < fuel := by
        have := orbit_trace_length_le esc nxt fuel (nxt z) (i + 1)
        omega
      have hner : orbit_trace esc nxt (nxt z) (i + 1) fuel ≠ [] :=
        orbit_trace_ne_nil esc nxt fuel (nxt z) (i + 1) hfuel
      rw [List.getLast_cons hner]
      exact ih (nxt z) (i + 1) hlr hner

/-- The loops of the two precision paths have pointwise-equivalent escape tests
and pointwise-equal steps, hence identical traces. -/
theorem orbit_trace_congr (esc esc' : Cplx → Prop) [DecidablePred esc] [DecidablePred esc']
    (nxt nxt' : Cplx → Cplx) (hesc : ∀ z, esc z ↔ esc' z) (hnxt : ∀ z, nxt z = nxt' z) :
    ∀ (fuel : ℕ) (z : Cplx) (i : ℕ),
      orbit_trace esc nxt z i fuel = orbit_trace esc' nxt' z i fuel := by
  intro fuel
  induction fuel with
  | zero => intro z i; rfl
  | succ fuel ih =>
    intro z i
    by_cases hz : esc z
    · simp [orbit_trace, hz, (hesc z).mp hz]
    · have hz' : ¬ esc' z := fun h => hz ((hesc z).mpr h)
      simp only [orbit_trace, hz, hz', if_false]
      rw [hnxt z, ih (nxt' z) (i + 1)]

/-! ### From the storage pass to the trace -/

theorem ReferenceOrbitBuffer.cpu_data_resize (b : ReferenceOrbitBuffer) (n : ℕ) :
    (b.resize n).cpu_data
      = b.cpu_data.take n
        ++ List.replicate (n - b.cpu_data.length) ReferenceOrbitPoint.default0 := rfl

/-- For a positive iteration budget, the stored orbit after resize, loop and
trim is exactly the loop's trace from `z = 0`, independent of the buffer's
previous contents. -/
theorem orbit_pass_cpu_data (esc : Cplx → Prop) [DecidablePred esc] (nxt : Cplx → Cplx)
    (m : DeepZoomManager) (hpos : 0 < m.state.max_iterations) :
    (orbit_pass esc nxt m).reference_orbit.cpu_data
      = orbit_trace esc nxt ⟨0, 0⟩ 0 m.state.max_iterations.toNat := by
  have hnn : (0 : ℤ) ≤ m.state.max_iterations := le_of_lt hpos
  have htn : (m.state.max_iterations.toNat : ℤ) = m.state.max_iterations :=
    Int.toNat_of_nonneg hnn
  have hlen : (m.reference_orbit.resize (size_t_of_int m.state.max_iterations)).cpu_data.length
      = 0 + m.state.max_iterations.toNat := by
    rw [ReferenceOrbitBuffer.length_resize, size_t_of_int_of_nonneg hnn]
    omega
  have spec := run_orbit_loop_spec esc nxt m.state.max_iterations.toNat ⟨0, 0⟩ 0
    (m.reference_orbit.resize (size_t_of_int m.state.max_iterations)).cpu_data hlen
  have hlenr := run_orbit_loop_length esc nxt m.state.max_iterations.toNat
    (m.reference_orbit.resize (size_t_of_int m.state.max_iterations)).cpu_data ⟨0, 0⟩ 0
  unfold orbit_pass
  dsimp only
  rcases hr : (run_orbit_loop esc nxt
      (m.reference_orbit.resize (size_t_of_int m.state.max_iterations)).cpu_data
      ⟨0, 0⟩ 0 m.state.max_iterations.toNat).2 with _ | e
  · obtain ⟨h1, _⟩ := spec.1 hr
    dsimp only
    simpa using h1
  · obtain ⟨h1, h2, h3⟩ := spec.2 e hr
    dsimp only
    have he : (e : ℤ) < m.state.max_iterations := by omega
    rw [if_pos he, ReferenceOrbitBuffer.cpu_data_resize]
    dsimp only
    rw [hlenr, hlen, show e + 1 - (0 + m.state.max_iterations.toNat) = 0 by omega]
    simpa using h1

/-- Both precision paths of `compute_reference_orbit` store the same trace:
the escape-time orbit of `z ← z² + c` with escape test
`magnitude_squared > 4`, for `max_iterations.toNat` budgeted steps. -/
theorem compute_reference_orbit_cpu_data (m : DeepZoomManager)
    (hpert : m.state.use_perturbation = true) (hpos : 0 < m.state.max_iterations) :
    m.compute_reference_orbit.reference_orbit.cpu_data
      = orbit_trace escHP (zStep ⟨m.state.center_x, m.state.center_y⟩) ⟨0, 0⟩ 0
          m.state.max_iterations.toNat := by
  unfold DeepZoomManager.compute_reference_orbit
  rw [if_pos hpert]
  dsimp only
  have hpos1 : 0 < ({ m with state := m.state.update_precision_mode } :
      DeepZoomManager).state.max_iterations := by
    simpa using hpos
  by_cases hhp : m.state.update_precision_mode.high_precision_enabled
  · rw [if_pos hhp]
    rw [orbit_pass_cpu_data _ _ _ hpos1]
    simp only [DeepZoomState.update_precision_mode_max_iterations]
    exact orbit_trace_congr _ _ _ _
      (fun z => Iff.rfl)
      (fun z => by
        simp only [DeepZoomState.update_precision_mode_center_x,
          DeepZoomState.update_precision_mode_center_y]
        rw [Cplx.square_eq_mul_self]
        rfl) _ _ _
  · rw [if_neg hhp]
    rw [orbit_pass_cpu_data _ _ _ hpos1]
    simp only [DeepZoomState.update_precision_mode_max_iterations]
    exact orbit_trace_congr _ _ _ _
      (fun z => (escDouble_iff z).trans (escHP_iff z).symm)
      (fun z => by
        simp only [DeepZoomState.update_precision_mode_center_x,
          DeepZoomState.update_precision_mode_center_y]) _ _ _

/-- The early return of `compute_reference_orbit` when perturbation is off:
the whole manager is left untouched. -/
theorem compute_reference_orbit_noop (m : DeepZoomManager)
    (h : m.state.use_perturbation = false) : m.compute_reference_orbit = m := by
  unfold DeepZoomManager.compute_reference_orbit
  rw [h]
  simp

/-! ### Claim C10 -/

/-- C10: when `use_perturbation` is false, `compute_reference_orbit` returns
immediately with no effect: the orbit data, the dirty flag,
`reference_iterations`, `precision_mode` and `precision_bits` (indeed the
whole manager) are left exactly as they were. -/
theorem c10_no_perturbation_noop (m : DeepZoomManager)
    (h : m.state.use_perturbation = false) :
    m.compute_reference_orbit.reference_orbit.cpu_data = m.reference_orbit.cpu_data
    ∧ m.compute_reference_orbit.reference_orbit.is_dirty = m.reference_orbit.is_dirty
    ∧ m.compute_reference_orbit.state.reference_iterations = m.state.reference_iterations
    ∧ m.compute_reference_orbit.state.precision_mode = m.state.precision_mode
    ∧ m.compute_reference_orbit.state.precision_bits = m.state.precision_bits
    ∧ m.compute_reference_orbit = m := by
  have hm := compute_reference_orbit_noop m h
  rw [hm]
  exact ⟨rfl, rfl, rfl, rfl, rfl, rfl⟩

theorem c10_no_perturbation_noop_witness :
    noPertManager.compute_reference_orbit = noPertManager :=
  (c10_no_perturbation_noop noPertManager rfl).2.2.2.2.2

/-! ### Claim C2 -/

/-- C2 counterexample: at the exact boundary `zoom = 1e-14` the selected mode
is `Quad`, not `Double` as the claim states, and at `zoom = 1e-30` it is
`Arbitrary`, not `Quad`. -/
theorem c2_boundary_counterexample :
    boundaryState14.update_precision_mode.precision_mode = PrecisionMode.Quad
    ∧ boundaryState14.update_precision_mode.precision_mode ≠ PrecisionMode.Double
    ∧ boundaryState30.update_precision_mode.precision_mode = PrecisionMode.Arbitrary
    ∧ boundaryState30.update_precision_mode.precision_mode ≠ PrecisionMode.Quad := by
  have h14 : |(1e-14 : ℝ)| = 1e-14 := abs_of_pos (by norm_num)
  have h30 : |(1e-30 : ℝ)| = 1e-30 := abs_of_pos (by norm_num)
  unfold DeepZoomState.update_precision_mode boundaryState14 boundaryState30
  dsimp only
  rw [h14, h30]
  rw [if_neg (by norm_num), if_pos (by norm_num), if_neg (by norm_num), if_neg (by norm_num)]
  refine ⟨rfl, by simp, rfl, by simp⟩

/-- C2 amended: `update_precision_mode` uses strict comparisons, so the modes
are `Double ↔ zoom > 1e-14`, `Quad ↔ 1e-30 < zoom ≤ 1e-14`, and
`Arbitrary ↔ zoom ≤ 1e-30` (zoom magnitudes; matching the header comments);
`Double` always comes with 64 bits. -/
theorem c2_precision_mode_thresholds (s : DeepZoomState) :
    (s.update_precision_mode.precision_mode = PrecisionMode.Double ↔ 1e-14 < |s.zoom|)
    ∧ (s.update_precision_mode.precision_mode = PrecisionMode.Quad ↔
        1e-30 < |s.zoom| ∧ |s.zoom| ≤ 1e-14)
    ∧ (s.update_precision_mode.precision_mode = PrecisionMode.Arbitrary ↔ |s.zoom| ≤ 1e-30)
    ∧ (s.update_precision_mode.precision_mode = PrecisionMode.Double →
        s.update_precision_mode.precision_bits = 64) := by
  unfold DeepZoomState.update_precision_mode
  dsimp only
  split_ifs with h1 h2
  · have hA : ¬ |s.zoom| ≤ 1e-14 := not_le.mpr h1
    have hB : ¬ |s.zoom| ≤ 1e-30 := not_le.mpr (lt_trans (by norm_num) h1)
    simp [h1, hA, hB]
  · have hle : |s.zoom| ≤ 1e-14 := not_lt.mp h1
    have hB : ¬ |s.zoom| ≤ 1e-30 := not_le.mpr h2
    simp [h1, h2, hle, hB]
  · have hle : |s.zoom| ≤ 1e-30 := not_lt.mp h2
    simp [h1, h2, hle]

theorem c2_precision_mode_thresholds_witness :
    baseState.update_precision_mode.precision_mode = PrecisionMode.Double
    ∧ baseState.update_precision_mode.precision_bits = 64 := by
  have h := (c2_precision_mode_thresholds baseState).1.mpr (by norm_num [baseState])
  exact ⟨h, (c2_precision_mode_thresholds baseState).2.2.2 h⟩

/-! ### Claim C3 -/

/-- C3 counterexample: at `zoom = 10⁻¹⁵` the code returns
`64 + floor(15·3.32) + 64 = 177`, while the spec formula with `ceil` gives
`178`; and at the exact boundary `zoom = 1e-14` the selected mode is
non-`Double` (`Quad`) yet the stored bit-width is 64, outside `[128, 4096]`. -/
theorem c3_bits_counterexample :
    calculate_required_precision_bits (((10 : ℝ) ^ (15 : ℕ))⁻¹) = 177
    ∧ spec_precision_bits (((10 : ℝ) ^ (15 : ℕ))⁻¹) = 178
    ∧ calculate_required_precision_bits (((10 : ℝ) ^ (15 : ℕ))⁻¹)
        ≠ spec_precision_bits (((10 : ℝ) ^ (15 : ℕ))⁻¹)
    ∧ boundaryState14.update_precision_mode.precision_mode ≠ PrecisionMode.Double
    ∧ boundaryState14.update_precision_mode.precision_bits = 64 := by
  have hl10 : Real.log 10 ≠ 0 := ne_of_gt (Real.log_pos (by norm_num))
  have hlogb : Real.logb 10 (((10 : ℝ) ^ (15 : ℕ))⁻¹) = -15 := by
    rw [Real.logb, Real.log_inv, Real.log_pow]
    push_cast
    field_simp
  have hfloor : ⌊(-(-15 : ℝ)) * 3.32⌋ = 49 := by
    rw [show (-(-15 : ℝ)) * 3.32 = 49.8 by norm_num]
    exact Int.floor_eq_iff.mpr ⟨by norm_num, by norm_num⟩
  have hceil : ⌈(-(-15 : ℝ)) * 3.32⌉ = 50 := by
    rw [show (-(-15 : ℝ)) * 3.32 = 49.8 by norm_num]
    exact Int.ceil_eq_iff.mpr ⟨by norm_num, by norm_num⟩
  have hsmall : ¬ ((1e-14 : ℝ) ≤ ((10 : ℝ) ^ (15 : ℕ))⁻¹) := by norm_num
  have hc : calculate_required_precision_bits (((10 : ℝ) ^ (15 : ℕ))⁻¹) = 177 := by
    unfold calculate_required_precision_bits
    rw [if_neg hsmall]
    dsimp only
    rw [hlogb, hfloor]
    norm_num
  have hs : spec_precision_bits (((10 : ℝ) ^ (15 : ℕ))⁻¹) = 178 := by
    unfold spec_precision_bits
    rw [hlogb, hceil]
    norm_num
  have h14 : |(1e-14 : ℝ)| = 1e-14 := abs_of_pos (by norm_num)
  have hmode : boundaryState14.update_precision_mode.precision_mode ≠ PrecisionMode.Double
      ∧ boundaryState14.update_precision_mode.precision_bits = 64 := by
    unfold DeepZoomState.update_precision_mode boundaryState14
    dsimp only
    rw [h14, if_neg (by norm_num), if_pos (by norm_num)]
    refine ⟨by simp, ?_⟩
    show calculate_required_precision_bits (1e-14) = 64
    unfold calculate_required_precision_bits
    rw [if_pos (by norm_num)]
  exact ⟨hc, hs, by rw [hc, hs]; norm_num, hmode.1, hmode.2⟩

/-- C3 amended: for `0 < zoom < 1e-14` the bit-width is
`64 + floor(−log10(zoom)·3.32) + 64` clamped to `[128, 4096]` (truncation,
not `ceil`), and in particular always lies within `[128, 4096]` on that
range; at the exact boundary `zoom = 1e-14` the Quad mode keeps 64 bits. -/
theorem c3_bits_amended (z : ℝ) (h0 : 0 < z) (h14 : z < 1e-14) :
    calculate_required_precision_bits z
      = max 128 (min (64 + ⌊(-Real.logb 10 z) * 3.32⌋ + 64) 4096)
    ∧ 128 ≤ calculate_required_precision_bits z
    ∧ calculate_required_precision_bits z ≤ 4096 := by
  have hne : ¬ ((1e-14 : ℝ) ≤ z) := not_le.mpr h14
  unfold calculate_required_precision_bits
  rw [if_neg hne]
  exact ⟨rfl, le_max_left _ _, max_le (by norm_num) (min_le_right _ _)⟩

theorem c3_bits_amended_witness :
    (0 : ℝ) < ((10 : ℝ) ^ (15 : ℕ))⁻¹
    ∧ ((10 : ℝ) ^ (15 : ℕ))⁻¹ < 1e-14
    ∧ 128 ≤ calculate_required_precision_bits (((10 : ℝ) ^ (15 : ℕ))⁻¹)
    ∧ calculate_required_precision_bits (((10 : ℝ) ^ (15 : ℕ))⁻¹) ≤ 4096 :=
  ⟨by norm_num, by norm_num,
    (c3_bits_amended _ (by norm_num) (by norm_num)).2.1,
    (c3_bits_amended _ (by norm_num) (by norm_num)).2.2⟩

/-! ### Claims C5 and C6 -/

theorem exp_half_log_hundred : Real.exp ((1 : ℝ) / 2 * Real.log 100) = 10 := by
  rw [show (100 : ℝ) = 10 ^ (2 : ℕ) by norm_num, Real.log_pow,
    show (1 : ℝ) / 2 * (((2 : ℕ) : ℝ) * Real.log 10) = Real.log 10 by push_cast; ring]
  exact Real.exp_log (by norm_num)

/-- C5: for positive endpoint zooms the interpolated zoom is
`exp((1−t)·log z0 + t·log z1)`; between zooms 1 and 100 at `t = 1/2` this is
the geometric mean 10, not the arithmetic mean 50.5. -/
theorem c5_log_zoom_interpolation :
    (∀ z0 z1 t : ℝ, 0 < z0 → 0 < z1 → 0 ≤ t → t ≤ 1 →
      interpolate_zoom_log z0 z1 t
        = Real.exp ((1 - t) * Real.log z0 + t * Real.log z1))
    ∧ interpolate_zoom_log 1 100 (1 / 2) = 10
    ∧ interpolate_zoom_log 1 100 (1 / 2) ≠ 50.5 := by
  have key : interpolate_zoom_log 1 100 (1 / 2) = 10 := by
    unfold interpolate_zoom_log
    rw [Real.log_one, show (0 : ℝ) + 1 / 2 * (Real.log 100 - 0)
      = 1 / 2 * Real.log 100 by ring]
    exact exp_half_log_hundred
  refine ⟨fun z0 z1 t h0 h1 ht0 ht1 => ?_, key, by rw [key]; norm_num⟩
  unfold interpolate_zoom_log
  congr 1
  ring

theorem c5_log_zoom_interpolation_witness :
    (0 : ℝ) < 1 ∧ (0 : ℝ) < 100
    ∧ interpolate_zoom_log 1 100 (1 / 2)
        = Real.exp ((1 - 1 / 2) * Real.log 1 + 1 / 2 * Real.log 100) :=
  ⟨one_pos, by norm_num,
    c5_log_zoom_interpolation.1 1 100 (1 / 2) one_pos (by norm_num) (by norm_num)
      (by norm_num)⟩

/-- C6, the code evaluated at the failing input: with a negative zoom at the
left endpoint the source still applies the logarithmic formula (there is no
non-positive-zoom fallback in `interpolate_to_keyframe`), so the result is
not the linear interpolation `(1−t)·z0 + t·z1 = 49.5` the claim requires.
(In IEEE arithmetic `std::log(-1)` is NaN and the stored zoom becomes NaN;
the exact model maps `log` of a negative argument to `log` of its absolute
value, making the absence of the fallback branch visible as the value 10.) -/
theorem c6_no_linear_fallback :
    interpolate_zoom_log (-1) 100 (1 / 2) = 10
    ∧ interpolate_zoom_log (-1) 100 (1 / 2) ≠ (1 - 1 / 2) * (-1) + 1 / 2 * 100 := by
  have key : interpolate_zoom_log (-1) 100 (1 / 2) = 10 := by
    unfold interpolate_zoom_log
    rw [show ((-1 : ℝ)) = -(1 : ℝ) by norm_num, Real.log_neg_eq_log, Real.log_one,
      show (0 : ℝ) + 1 / 2 * (Real.log 100 - 0) = 1 / 2 * Real.log 100 by ring]
    exact exp_half_log_hundred
  exact ⟨key, by rw [key]; norm_num⟩

/-! ### Claim C8 -/

/-- C8 counterexample: `resize(n)` does not replace the previous contents
with default points — `std::vector::resize` keeps the existing elements, so
resizing a buffer holding a non-default point to its own size leaves the
point in place. -/
theorem c8_resize_counterexample :
    (sampleBuffer.resize 1).cpu_data ≠ List.replicate 1 ReferenceOrbitPoint.default0 := by
  simp [sampleBuffer, ReferenceOrbitBuffer.resize, ReferenceOrbitPoint.default0]

/-- C8 amended: `resize(n)` gives `cpu_data` length `n`, preserving the
existing elements below `min n (old length)` and filling positions from the
old length up to `n` with default points, and sets the dirty flag. -/
theorem c8_resize_amended (b : ReferenceOrbitBuffer) (n : ℕ) :
    (b.resize n).cpu_data.length = n
    ∧ (∀ i : ℕ, i < min n b.cpu_data.length →
        (b.resize n).cpu_data[i]? = b.cpu_data[i]?)
    ∧ (∀ i : ℕ, b.cpu_data.length ≤ i → i < n →
        (b.resize n).cpu_data[i]? = some ReferenceOrbitPoint.default0)
    ∧ (b.resize n).is_dirty = true := by
  refine ⟨ReferenceOrbitBuffer.length_resize b n, ?_, ?_, rfl⟩
  · intro i hi
    rw [ReferenceOrbitBuffer.cpu_data_resize, List.getElem?_append,
      if_pos (by simp only [List.length_take]; omega), List.getElem?_take,
      if_pos (by omega)]
  · intro i h1 h2
    rw [ReferenceOrbitBuffer.cpu_data_resize, List.getElem?_append,
      if_neg (by simp only [List.length_take]; omega), List.getElem?_replicate,
      if_pos (by simp only [List.length_take]; omega)]

theorem c8_resize_amended_witness :
    (sampleBuffer.resize 3).cpu_data.length = 3
    ∧ (sampleBuffer.resize 3).cpu_data[0]? = sampleBuffer.cpu_data[0]?
    ∧ (sampleBuffer.resize 3).cpu_data[2]? = some ReferenceOrbitPoint.default0
    ∧ (sampleBuffer.resize 3).is_dirty = true :=
  ⟨(c8_resize_amended sampleBuffer 3).1,
    (c8_resize_amended sampleBuffer 3).2.1 0 (by simp [sampleBuffer]),
    (c8_resize_amended sampleBuffer 3).2.2.1 2 (by simp [sampleBuffer]) (by norm_num),
    (c8_resize_amended sampleBuffer 3).2.2.2⟩

/-! ### Claim C1 -/

/-- C1: with perturbation on and a positive iteration budget, the orbit
stored by `compute_reference_orbit` (whichever precision path ran) satisfies:
`orbit[j].iteration = j` for every valid index, length ≤ `max_iterations`,
length = `e + 1` whenever the first escaping iterate (squared magnitude > 4)
has index `e` strictly below `max_iterations`, and length = `max_iterations`
when no iterate with index below `max_iterations` escapes. -/
theorem c1_orbit_invariants (m : DeepZoomManager)
    (hpert : m.state.use_perturbation = true) (hpos : 0 < m.state.max_iterations) :
    (∀ (j : ℕ) (h : j < m.compute_reference_orbit.reference_orbit.cpu_data.length),
      (m.compute_reference_orbit.reference_orbit.cpu_data.get ⟨j, h⟩).iteration = j)
    ∧ m.compute_reference_orbit.reference_orbit.cpu_data.length
        ≤ m.state.max_iterations.toNat
    ∧ (∀ e : ℕ, e < m.state.max_iterations.toNat →
        4 < (zOrbit ⟨m.state.center_x, m.state.center_y⟩ e).normSq →
        (∀ j : ℕ, j < e → ¬ (4 < (zOrbit ⟨m.state.center_x, m.state.center_y⟩ j).normSq)) →
        m.compute_reference_orbit.reference_orbit.cpu_data.length = e + 1)
    ∧ ((∀ j : ℕ, j < m.state.max_iterations.toNat →
        ¬ (4 < (zOrbit ⟨m.state.center_x, m.state.center_y⟩ j).normSq)) →
        m.compute_reference_orbit.reference_orbit.cpu_data.length
          = m.state.max_iterations.toNat) := by
  have hdata := compute_reference_orbit_cpu_data m hpert hpos
  rw [hdata]
  refine ⟨?_, orbit_trace_length_le _ _ _ _ _, ?_, ?_⟩
  · intro j h
    have h1 := orbit_trace_getElem? escHP (zStep ⟨m.state.center_x, m.state.center_y⟩)
      m.state.max_iterations.toNat ⟨0, 0⟩ 0 j h
    rw [List.getElem?_eq_getElem h] at h1
    have h2 := Option.some.inj h1
    rw [List.get_eq_getElem, h2]
    simp
  · intro e he hesc hmin
    exact orbit_trace_length_of_escape escHP (zStep ⟨m.state.center_x, m.state.center_y⟩)
      m.state.max_iterations.toNat e ⟨0, 0⟩ 0 he hesc hmin
  · intro hno
    exact orbit_trace_length_of_no_escape escHP (zStep ⟨m.state.center_x, m.state.center_y⟩)
      m.state.max_iterations.toNat ⟨0, 0⟩ 0 hno

theorem c1_orbit_invariants_witness :
    escapeManager.state.use_perturbation = true
    ∧ 0 < escapeManager.state.max_iterations
    ∧ escapeManager.compute_reference_orbit.reference_orbit.cpu_data.length
        ≤ escapeManager.state.max_iterations.toNat :=
  ⟨rfl, by decide, (c1_orbit_invariants escapeManager rfl (by decide)).2.1⟩

/-! ### Claim C4 -/

/-- C4: whenever the stored orbit is strictly shorter than `max_iterations`,
its last element satisfies the escape condition — squared magnitude of the
stored value above 4, i.e. `|z| > 2` on the double path and
`magnitude_squared > 4` on the high-precision path (the stored value being
the full-precision iterate in the exact model). -/
theorem c4_escape_at_last (m : DeepZoomManager)
    (hpert : m.state.use_perturbation = true)
    (hshort : (m.compute_reference_orbit.reference_orbit.cpu_data.length : ℤ)
        < m.state.max_iterations) :
    ∃ hne : m.compute_reference_orbit.reference_orbit.cpu_data ≠ [],
      4 < ((m.compute_reference_orbit.reference_orbit.cpu_data.getLast hne).value).normSq := by
  have hpos : 0 < m.state.max_iterations :=
    lt_of_le_of_lt (Int.natCast_nonneg _) hshort
  have hdata := compute_reference_orbit_cpu_data m hpert hpos
  rw [hdata] at hshort ⊢
  have htn : (m.state.max_iterations.toNat : ℤ) = m.state.max_iterations :=
    Int.toNat_of_nonneg (le_of_lt hpos)
  have hlen : (orbit_trace escHP (zStep ⟨m.state.center_x, m.state.center_y⟩) ⟨0, 0⟩ 0
      m.state.max_iterations.toNat).length < m.state.max_iterations.toNat := by
    omega
  have hfuel : 0 < m.state.max_iterations.toNat := by omega
  have hne := orbit_trace_ne_nil escHP (zStep ⟨m.state.center_x, m.state.center_y⟩)
    m.state.max_iterations.toNat ⟨0, 0⟩ 0 hfuel
  exact ⟨hne, orbit_trace_getLast_escapes escHP (zStep ⟨m.state.center_x, m.state.center_y⟩)
    m.state.max_iterations.toNat ⟨0, 0⟩ 0 hlen hne⟩

/-- Unfolding equation of the trace at a successor fuel value. -/
theorem orbit_trace_succ (esc : Cplx → Prop) [DecidablePred esc] (nxt : Cplx → Cplx)
    (z : Cplx) (i fuel : ℕ) :
    orbit_trace esc nxt z i (fuel + 1)
      = if esc z then [⟨z, i⟩] else ⟨z, i⟩ :: orbit_trace esc nxt (nxt z) (i + 1) fuel := rfl

/-- The orbit of `escapeManager` evaluated: center `(2, 2)` stores `z₀ = 0`,
escapes at the stored iterate `z₁ = (2, 2)`, so the orbit is trimmed to two
points out of the three budgeted. -/
theorem escapeManager_orbit_eval :
    escapeManager.compute_reference_orbit.reference_orbit.cpu_data
      = [⟨⟨0, 0⟩, 0⟩, ⟨⟨2, 2⟩, 1⟩] := by
  have e0 : ¬ escHP (⟨0, 0⟩ : Cplx) := by norm_num [escHP, Cplx.normSq]
  have e1 : escHP (⟨2, 2⟩ : Cplx) := by norm_num [escHP, Cplx.normSq]
  have hstep : zStep ⟨2, 2⟩ ⟨0, 0⟩ = ⟨2, 2⟩ := by
    norm_num [zStep, Cplx.mul, Cplx.add, Cplx.mk.injEq]
  rw [compute_reference_orbit_cpu_data escapeManager rfl (by decide)]
  rw [show (⟨escapeManager.state.center_x, escapeManager.state.center_y⟩ : Cplx)
    = ⟨2, 2⟩ from rfl]
  rw [show escapeManager.state.max_iterations.toNat = 2 + 1 from rfl]
  rw [orbit_trace_succ, if_neg e0, hstep]
  rw [show (2 : ℕ) = 1 + 1 from rfl, orbit_trace_succ, if_pos e1]

theorem c4_escape_at_last_witness :
    escapeManager.state.use_perturbation = true
    ∧ ((escapeManager.compute_reference_orbit.reference_orbit.cpu_data.length : ℤ)
        < escapeManager.state.max_iterations)
    ∧ ∃ hne : escapeManager.compute_reference_orbit.reference_orbit.cpu_data ≠ [],
        4 < ((escapeManager.compute_reference_orbit.reference_orbit.cpu_data.getLast
          hne).value).normSq := by
  have hshort : ((escapeManager.compute_reference_orbit.reference_orbit.cpu_data.length : ℤ)
      < escapeManager.state.max_iterations) := by
    rw [escapeManager_orbit_eval]
    show ((2 : ℕ) : ℤ) < (3 : ℤ)
    norm_num
  exact ⟨rfl, hshort, c4_escape_at_last escapeManager rfl hshort⟩

/-! ### Claim C7 -/

/-- With a non-positive iteration budget the loop body never runs: the stored
data is whatever the initial `resize(size_t(max_iterations))` produced. -/
theorem orbit_pass_cpu_data_nonpos (esc : Cplx → Prop) [DecidablePred esc]
    (nxt : Cplx → Cplx) (m : DeepZoomManager) (h : m.state.max_iterations ≤ 0) :
    (orbit_pass esc nxt m).reference_orbit.cpu_data
      = m.reference_orbit.cpu_data.take (size_t_of_int m.state.max_iterations)
        ++ List.replicate (size_t_of_int m.state.max_iterations
            - m.reference_orbit.cpu_data.length) ReferenceOrbitPoint.default0 := by
  have hfuel : m.state.max_iterations.toNat = 0 := Int.toNat_of_nonpos h
  unfold orbit_pass
  dsimp only
  rw [hfuel]
  simp only [run_orbit_loop]
  exact ReferenceOrbitBuffer.cpu_data_resize m.reference_orbit _

/-- Both precision paths, for a non-positive budget. -/
theorem compute_reference_orbit_cpu_data_nonpos (m : DeepZoomManager)
    (hpert : m.state.use_perturbation = true) (hneg : m.state.max_iterations ≤ 0) :
    m.compute_reference_orbit.reference_orbit.cpu_data
      = m.reference_orbit.cpu_data.take (size_t_of_int m.state.max_iterations)
        ++ List.replicate (size_t_of_int m.state.max_iterations
            - m.reference_orbit.cpu_data.length) ReferenceOrbitPoint.default0 := by
  unfold DeepZoomManager.compute_reference_orbit
  rw [if_pos hpert]
  dsimp only
  by_cases hhp : m.state.update_precision_mode.high_precision_enabled
  · rw [if_pos hhp, orbit_pass_cpu_data_nonpos _ _ _ (by simpa using hneg)]
    simp [DeepZoomState.update_precision_mode_max_iterations]
  · rw [if_neg hhp, orbit_pass_cpu_data_nonpos _ _ _ (by simpa using hneg)]
    simp [DeepZoomState.update_precision_mode_max_iterations]

/-- C7, the code evaluated at the failing input: for `max_iterations = -1`
the implicit `int → size_t` conversion asks `resize` for `2⁶⁴ − 1` elements,
so the resulting orbit is not empty (in the exact model; the real
`std::vector::resize` throws `length_error`/`bad_alloc` for such a request
instead of succeeding).  For `max_iterations = 0` the orbit is empty, as the
claim states. -/
theorem c7_negative_iterations :
    size_t_of_int (-1) = 2 ^ 64 - 1
    ∧ negIterManager.compute_reference_orbit.reference_orbit.cpu_data.length = 2 ^ 64 - 1
    ∧ negIterManager.compute_reference_orbit.reference_orbit.cpu_data.length ≠ 0
    ∧ zeroIterManager.compute_reference_orbit.reference_orbit.cpu_data.length = 0 := by
  have hsz : size_t_of_int (-1) = 2 ^ 64 - 1 := by decide
  have hneg := compute_reference_orbit_cpu_data_nonpos negIterManager rfl (by decide)
  have hzero := compute_reference_orbit_cpu_data_nonpos zeroIterManager rfl (by decide)
  have hlen : negIterManager.compute_reference_orbit.reference_orbit.cpu_data.length
      = 2 ^ 64 - 1 := by
    rw [hneg, show negIterManager.reference_orbit.cpu_data = [] from rfl,
      show negIterManager.state.max_iterations = (-1 : ℤ) from rfl, hsz]
    simp only [List.take_nil, List.nil_append, List.length_replicate, List.length_nil,
      Nat.sub_zero]
  have hlen0 : zeroIterManager.compute_reference_orbit.reference_orbit.cpu_data.length
      = 0 := by
    rw [hzero, show zeroIterManager.reference_orbit.cpu_data = [] from rfl,
      show zeroIterManager.state.max_iterations = (0 : ℤ) from rfl,
      show size_t_of_int 0 = 0 from rfl]
    simp only [List.take_nil, List.nil_append, List.length_replicate, List.length_nil,
      Nat.sub_zero]
  refine ⟨hsz, hlen, ?_, hlen0⟩
  rw [hlen]
  norm_num

/-! ### Claim C9 -/

/-- C9 counterexample: right after `playZoomPath` the elapsed time (0) already
meets the first keyframe's duration (0), so `update(0.0)` snaps to the
keyframe and advances the cursor — the state is not left unchanged. -/
theorem c9_update_zero_counterexample :
    (animManager.update 0).current_keyframe ≠ animManager.current_keyframe := by
  have hguard : ¬ (animManager.zoom_path.length = 0
      ∨ animManager.zoom_path.length ≤ animManager.current_keyframe) := by
    rw [show animManager.zoom_path = [kfStart, kfEnd] from rfl,
      show animManager.current_keyframe = 0 from rfl]
    norm_num
  have hsnap : (animManager.zoom_path.getD animManager.current_keyframe
      (default : ZoomKeyframe)).duration ≤ animManager.animation_time + 0 := by
    rw [show animManager.zoom_path.getD animManager.current_keyframe
        (default : ZoomKeyframe) = kfStart from rfl,
      show kfStart.duration = (0 : ℝ) from rfl,
      show animManager.animation_time = (0 : ℝ) from rfl]
    norm_num
  have hanim : (animManager.update_animation 0).current_keyframe = 1 := by
    unfold DeepZoomManager.update_animation
    rw [if_neg hguard]
    dsimp only
    rw [if_pos hsnap]
    rw [compute_reference_orbit_noop _ rfl]
    have hc2 : ¬ (animManager.zoom_path.length ≤ animManager.current_keyframe + 1) := by
      rw [show animManager.zoom_path = [kfStart, kfEnd] from rfl,
        show animManager.current_keyframe = 0 from rfl]
      norm_num
    dsimp only
    rw [if_neg hc2]
    rfl
  have h1 : (animManager.update 0).current_keyframe = 1 := by
    unfold DeepZoomManager.update
    rw [if_pos (show animManager.state.zoom_animating = true from rfl)]
    dsimp only
    exact hanim
  rw [h1, show animManager.current_keyframe = 0 from rfl]
  norm_num

/-- Mid-segment characterization of `update(0)`: when animating with elapsed
time strictly below the current keyframe's duration, the update interpolates
in place.  The resulting manager is an explicit function of the path, the
cursor, the elapsed time and the previous state (the previous center/zoom
survive only when the cursor sits at keyframe 0, where
`interpolate_to_keyframe` is a no-op). -/
theorem update_zero_mid_eq (m : DeepZoomManager) (ha : m.state.zoom_animating = true)
    (hc : m.current_keyframe < m.zoom_path.length)
    (ht : m.animation_time < (m.zoom_path.getD m.current_keyframe default).duration) :
    m.update 0 =
      (let kf := m.zoom_path.getD m.current_keyframe default
      let prev := m.zoom_path.getD (m.current_keyframe - 1) default
      let t : ℝ := (m.animation_time + 0) / kf.duration
      let zNew : ℝ := if m.current_keyframe = 0 then m.state.zoom
        else interpolate_zoom_log prev.zoom kf.zoom t
      let total : ℝ := (m.zoom_path.map ZoomKeyframe.duration).sum
      let elapsed : ℝ := ((m.zoom_path.take m.current_keyframe).map ZoomKeyframe.duration).sum
        + (m.animation_time + 0)
      let depth : ℤ := if 1e-6 < zNew then 0 else if 1e-10 < zNew then 1
        else if 1e-14 < zNew then 2 else 3
      { m with
          animation_time := m.animation_time + 0
          state := { m.state with
            center_x := if m.current_keyframe = 0 then m.state.center_x
              else prev.center_x + t * (kf.center_x - prev.center_x)
            center_y := if m.current_keyframe = 0 then m.state.center_y
              else prev.center_y + t * (kf.center_y - prev.center_y)
            zoom := zNew
            zoom_progress := if 0 < total then elapsed / total else 1
            zoom_depth_level := depth
            estimated_render_time := (m.state.max_iterations : ℝ) * 0.001
              * (m.state.samples_per_pixel : ℝ) * (1 + (depth : ℝ) * 0.5) } }) := by
  have hguard : ¬ (m.zoom_path.length = 0 ∨ m.zoom_path.length ≤ m.current_keyframe) := by
    omega
  have hsnap : ¬ ((m.zoom_path.getD m.current_keyframe default).duration
      ≤ m.animation_time + 0) := by
    rw [add_zero]
    exact not_le.mpr ht
  unfold DeepZoomManager.update DeepZoomManager.update_animation
  rw [if_pos ha, if_neg hguard]
  dsimp only
  rw [if_neg hsnap]
  unfold DeepZoomManager.interpolate_to_keyframe
  dsimp only
  by_cases h0 : m.current_keyframe = 0
  · rw [if_pos (Or.inl h0)]
    simp only [h0, if_true, eq_self_iff_true]
  · rw [if_neg (by omega : ¬ (m.current_keyframe = 0
      ∨ m.zoom_path.length ≤ m.current_keyframe))]
    simp only [h0, if_false]

/-- C9 amended: `update(0.0)` leaves the claimed fields (center, zoom,
keyframe cursor, elapsed time, zoom progress, orbit buffer, path) unchanged
whenever the manager is idle; when it is animating mid-segment (elapsed time
strictly below the current keyframe's duration) `update(0.0)` is idempotent —
a second call changes nothing.  (When the elapsed time has reached the
current keyframe's duration, `update(0.0)` snaps and advances the cursor, as
the counterexample shows, so the claim cannot hold for every state.) -/
theorem c9_update_zero_amended :
    (∀ m : DeepZoomManager, m.state.zoom_animating = false →
      ((m.update 0).state.center_x = m.state.center_x
      ∧ (m.update 0).state.center_y = m.state.center_y
      ∧ (m.update 0).state.zoom = m.state.zoom
      ∧ (m.update 0).current_keyframe = m.current_keyframe
      ∧ (m.update 0).animation_time = m.animation_time
      ∧ (m.update 0).state.zoom_progress = m.state.zoom_progress
      ∧ (m.update 0).reference_orbit = m.reference_orbit
      ∧ (m.update 0).zoom_path = m.zoom_path))
    ∧ (∀ m : DeepZoomManager, m.state.zoom_animating = true →
      m.current_keyframe < m.zoom_path.length →
      m.animation_time < (m.zoom_path.getD m.current_keyframe default).duration →
      (m.update 0).update 0 = m.update 0) := by
  constructor
  · intro m hm
    unfold DeepZoomManager.update
    rw [if_neg (by rw [hm]; simp)]
    dsimp only
    exact ⟨rfl, rfl, rfl, rfl, rfl, rfl, rfl, rfl⟩
  · intro m ha hc ht
    have h1 := update_zero_mid_eq m ha hc ht
    have ha2 : (m.update 0).state.zoom_animating = true := by
      rw [h1]; exact ha
    have hc2 : (m.update 0).current_keyframe < (m.update 0).zoom_path.length := by
      rw [h1]; exact hc
    have ht2 : (m.update 0).animation_time
        < (((m.update 0).zoom_path).getD (m.update 0).current_keyframe default).duration := by
      rw [h1]
      show m.animation_time + 0 < (m.zoom_path.getD m.current_keyframe default).duration
      rw [add_zero]
      exact ht
    have h2 := update_zero_mid_eq (m.update 0) ha2 hc2 ht2
    rw [h2, h1]
    dsimp only
    by_cases h0 : m.current_keyframe = 0
    · simp [h0]
    · simp [h0]

theorem c9_update_zero_amended_witness :
    ((baseManager.update 0).state.zoom = baseManager.state.zoom
      ∧ (baseManager.update 0).current_keyframe = baseManager.current_keyframe)
    ∧ (midManager.update 0).update 0 = midManager.update 0 := by
  have hid := c9_update_zero_amended.1 baseManager rfl
  refine ⟨⟨hid.2.2.1, hid.2.2.2.1⟩, ?_⟩
  refine c9_update_zero_amended.2 midManager rfl (by decide) ?_
  rw [show midManager.animation_time = (2 : ℝ) from rfl,
    show midManager.zoom_path.getD midManager.current_keyframe default = kfEnd from rfl,
    show kfEnd.duration = (5 : ℝ) from rfl]
  norm_num
